import Mathlib

set_option autoImplicit false

/-!
Shallow embedding of the code-detox core (module dependency graph and
multi-pass detection engine) and proofs about it.

Source files embedded:
  * `src/core/graphBuilder.ts`   — `GraphBuilder` (build, processFile,
    getUnusedFiles, findCircularDependencies)
  * `src/core/unusedFinder.ts`   — `UnusedFinder.findInFile/findInFiles`
  * `src/core/deadCodeDetector.ts` — `DeadCodeDetector.detectInFile/detectInFiles`
  * `src/core/configAnalyzer.ts` — `ConfigAnalyzer.analyzePackageJson`
  * `src/core/staleDetector.ts`  — the entry-point list passed to
    `getUnusedFiles`
  * `src/utils/astParser.ts`     — the per-file syntactic fact extraction
    (`extractImports`, `extractIdentifiers`, `findUnreachableCode`,
    `findUnusedVariables`, `findEmptyCatchBlocks`)

The Babel parser itself is an external collaborator: AST traversals are
embedded as functions over the per-file syntactic records they visit
(identifier occurrences with their skip-flags, statements with their
return/throw flag, declaration bindings with their reference information),
which is exactly the information the traversal callbacks read.  File I/O
and the filesystem probing of `FileUtils.resolveImportPath` are abstracted
as oracle functions passed in as parameters.  JavaScript `Map`s keyed by
file path are embedded as lists of nodes (insertion order preserved) looked
up by path, and JavaScript `Set`s as duplicate-free lists.
-/

namespace CodeDetox

/-- Substring containment on character lists: the needle is a prefix of
some suffix of the haystack (the empty needle is always contained). -/
def charsContains (hay needle : List Char) : Bool :=
  match hay with
  | [] => needle.isEmpty
  | c :: rest => needle.isPrefixOf (c :: rest) || charsContains rest needle

/-- JavaScript `hay.includes(needle)`: substring containment. -/
def strIncludes (hay needle : String) : Bool :=
  charsContains hay.data needle.data

/-- JavaScript `s.startsWith(pre)`. -/
def jsStartsWith (s pre : String) : Bool :=
  pre.data.isPrefixOf s.data

/-- JavaScript `s.split('/')` (split at every `/`, keeping empty
pieces, so the result is never empty). -/
def splitSlashChars : List Char → List (List Char)
  | [] => [[]]
  | c :: cs =>
    match splitSlashChars cs with
    | [] => [[c]]
    | h :: t => if c == '/' then [] :: h :: t else (c :: h) :: t

/-- JavaScript `s.split('/')` on strings. -/
def jsSplitSlash (s : String) : List String :=
  (splitSlashChars s.data).map String.mk

/-- JavaScript `parts.join('/')`. -/
def joinSlash : List String → String
  | [] => ""
  | [x] => x
  | x :: rest => x ++ "/" ++ joinSlash rest

/-- JavaScript `Set.prototype.add`: append if not already present. -/
def insertSet (s : List String) (x : String) : List String :=
  if s.contains x then s else s ++ [x]

/-- JavaScript `Set.prototype.delete`: remove the (unique) occurrence. -/
def removeSet (s : List String) (x : String) : List String :=
  s.erase x

/-- One node of the dependency graph (`DependencyNode` in
`src/core/graphBuilder.ts`): `imports` and `importedBy` are plain arrays
in the source, so they are lists here, not finsets. -/
structure DependencyNode where
  path : String
  imports : List String
  importedBy : List String
  exports : List String
deriving Repr, DecidableEq

/-- `this.nodes.get(k)` on the path-keyed node map. -/
def findNode (m : List DependencyNode) (k : String) : Option DependencyNode :=
  m.find? (fun n => n.path == k)

/-- In-place mutation of the node stored under key `k`
(`this.nodes.get(k)` followed by mutating the returned object). -/
def updateNode (m : List DependencyNode) (k : String)
    (f : DependencyNode → DependencyNode) : List DependencyNode :=
  m.map (fun n => if n.path == k then f n else n)

/-- What `processFile` learns about one file when reading and parsing
succeed: the raw sources of its import declarations, in order (one entry
per `ImportDeclaration`, duplicates kept), and its exported names. -/
structure FileFacts where
  importSources : List String
  exports : List String
deriving Repr

/-- The symmetric edge insertion of `GraphBuilder.processFile`:
`node.imports.push(resolvedPath)` immediately followed by
`importedNode.importedBy.push(filePath)` on the node map. -/
def insertDependencyEdge (m : List DependencyNode) (fromFile toFile : String) :
    List DependencyNode :=
  updateNode
    (updateNode m fromFile (fun n => { n with imports := n.imports ++ [toFile] }))
    toFile (fun n => { n with importedBy := n.importedBy ++ [fromFile] })

/-- One iteration of the edge loop of `GraphBuilder.processFile`:
resolve the source; when the resolved path is a known node, insert the
symmetric edge. -/
def processEdgeStep (resolve : String → String → Option String)
    (filePath : String) (acc : List DependencyNode) (src : String) :
    List DependencyNode :=
  match resolve filePath src with
  | none => acc
  | some resolvedPath =>
    if (findNode acc resolvedPath).isSome then
      insertDependencyEdge acc filePath resolvedPath
    else acc

/-- The edge loop of `GraphBuilder.processFile` over one file's import
sources. -/
def processEdges (resolve : String → String → Option String)
    (filePath : String) (sources : List String)
    (m : List DependencyNode) : List DependencyNode :=
  sources.foldl (processEdgeStep resolve filePath) m

/-- `GraphBuilder.processFile`.  `facts file = none` models the `catch`
branch (reading or parsing threw: nothing is mutated).  `resolve` is the
`FileUtils.resolveImportPath` oracle; `none` models both a `null` result
(external module / no probe succeeded) and the falsy check on the result. -/
def processFile (facts : String → Option FileFacts)
    (resolve : String → String → Option String)
    (m : List DependencyNode) (filePath : String) : List DependencyNode :=
  match findNode m filePath with
  | none => m
  | some _ =>
    match facts filePath with
    | none => m
    | some f =>
      updateNode (processEdges resolve filePath f.importSources m) filePath
        (fun n => { n with exports := f.exports })

/-- Phase 1 of `GraphBuilder.build`: one fresh node per file
(`Map.set` semantics: replace the value if the key exists, else append). -/
def initNodes (files : List String) : List DependencyNode :=
  files.foldl (fun acc file =>
    if (findNode acc file).isSome then
      updateNode acc file (fun _ => ⟨file, [], [], []⟩)
    else acc ++ [⟨file, [], [], []⟩]) []

/-- `GraphBuilder.build`: initialize all nodes, then process every file. -/
def build (facts : String → Option FileFacts)
    (resolve : String → String → Option String)
    (files : List String) : List DependencyNode :=
  files.foldl (processFile facts resolve) (initNodes files)

/-- `GraphBuilder.getUnusedFiles`: skip any file whose path contains an
entry-point fragment as a substring, report the rest when `importedBy`
is empty. -/
def getUnusedFiles (m : List DependencyNode) (entryPoints : List String) :
    List String :=
  m.foldl (fun unused n =>
    if entryPoints.any (fun entry => strIncludes n.path entry) then unused
    else if n.importedBy.length == 0 then unused ++ [n.path]
    else unused) []

/-- The entry-point fragment list `StaleDetector.findUnusedFiles` passes
to `getUnusedFiles`. -/
def staleDetectorEntryPoints : List String :=
  ["index", "main", "app", "_app", "server", "config",
   "vite.config", "webpack.config", "next.config", "tailwind.config",
   "jest.config", "test", "spec", ".test", ".spec"]

end CodeDetox

namespace CodeDetox

/-- The closure state of `findCircularDependencies`' recursive `dfs`:
the shared `visited` and `recStack` sets and the accumulated `cycles`. -/
structure DfsState where
  visited : List String
  recStack : List String
  cycles : List (List String)
deriving Repr

/-- JavaScript `path.slice(path.indexOf(x))`
(`indexOf` returning `-1` makes `slice(-1)` keep just the last element). -/
def sliceFromElem (path : List String) (x : String) : List String :=
  if path.contains x then path.drop (path.indexOf x)
  else path.drop (path.length - 1)

/-- The recursive `dfs` of `GraphBuilder.findCircularDependencies`.
`fuel` bounds the recursion depth; the source recursion always terminates
because `dfs` is only entered on a node not yet in `visited` and
immediately adds it, so any fuel larger than the node count is never
exhausted. -/
def dfs (g : List DependencyNode) :
    Nat → String → List String → DfsState → DfsState
  | 0, _, _, s => s
  | fuel + 1, node, path, s =>
    let s1 : DfsState :=
      { s with visited := insertSet s.visited node,
               recStack := insertSet s.recStack node }
    let path1 := path ++ [node]
    let s2 : DfsState :=
      match findNode g node with
      | none => s1
      | some nodeData =>
        nodeData.imports.foldl (fun st imported =>
          if st.visited.contains imported then
            if st.recStack.contains imported then
              { st with cycles := st.cycles ++ [sliceFromElem path1 imported] }
            else st
          else dfs g fuel imported path1 st) s1
    { s2 with recStack := removeSet s2.recStack node }

/-- `GraphBuilder.findCircularDependencies`: a DFS from every not-yet
visited node of the map, in insertion order. -/
def findCircularDependencies (g : List DependencyNode) :
    List (List String) :=
  (g.foldl (fun (s : DfsState) (n : DependencyNode) =>
      if s.visited.contains n.path then s
      else dfs g (g.length + 1) n.path [] s)
    ⟨[], [], []⟩).cycles

/-! ### Unused-import classifier (`src/core/unusedFinder.ts`) -/

/-- One entry of `ASTParser.extractImports`: one `ImportDeclaration` with
its raw source, the local names of its specifiers, and its line. -/
structure ImportInfo where
  source : String
  specifiers : List String
  line : Nat
deriving Repr, DecidableEq

/-- The `UnusedImport` record of `src/types.ts` (`from` is a reserved
word in Lean, so that field is `fromSource` here). -/
structure UnusedImport where
  file : String
  line : Nat
  importName : String
  fromSource : String
deriving Repr, DecidableEq

/-- One `Identifier` node met by the `ASTParser.extractIdentifiers`
traversal, together with the positional facts its skip-conditions read:
whether it is the key of a non-computed object property, whether it is
the property of a non-computed member expression, and whether its parent
is an import specifier (a binding site of an import). -/
structure IdentOccurrence where
  name : String
  isObjectPropertyKey : Bool
  isMemberProperty : Bool
  isImportBindingSite : Bool
deriving Repr, DecidableEq

/-- `ASTParser.extractIdentifiers` over the identifier occurrences of a
file, in traversal order: every occurrence is added to the used set
unless one of the skip-conditions holds. -/
def extractIdentifiers (occs : List IdentOccurrence) : List String :=
  occs.foldl (fun s o =>
    if o.isObjectPropertyKey || o.isMemberProperty || o.isImportBindingSite
    then s
    else insertSet s o.name) []

/-- The per-file syntactic facts `UnusedFinder.findInFile` consumes after
a successful read and parse. -/
structure UnusedFinderFacts where
  imports : List ImportInfo
  usedIdentifiers : List String
deriving Repr

/-- `UnusedFinder.findInFile`: for every import declaration, every local
name not in the used-identifier set is flagged.  `none` models the
`catch` branch (unreadable or unparseable file): no issues, no failure. -/
def findInFile (filePath : String) (outcome : Option UnusedFinderFacts) :
    List UnusedImport :=
  match outcome with
  | none => []
  | some facts =>
    facts.imports.foldl (fun unused imp =>
      imp.specifiers.foldl (fun unused specifier =>
        if facts.usedIdentifiers.contains specifier then unused
        else unused ++ [⟨filePath, imp.line, specifier, imp.source⟩]) unused)
      []

/-- `UnusedFinder.findInFiles`: concatenate the per-file results. -/
def findInFiles (files : List (String × Option UnusedFinderFacts)) :
    List UnusedImport :=
  files.foldl (fun acc f => acc ++ findInFile f.1 f.2) []

/-! ### Dead-code classifier (`src/core/deadCodeDetector.ts`,
`src/utils/astParser.ts`) -/

/-- One statement of a function's block body, as seen by
`ASTParser.findUnreachableCode`: its line and whether it is a
`ReturnStatement` or `ThrowStatement`. -/
structure Stmt where
  isReturnOrThrow : Bool
  line : Nat
deriving Repr, DecidableEq

/-- The body scan of `ASTParser.findUnreachableCode` for one function:
once a `return`/`throw` has been seen, every later statement of the same
block is flagged (the flag is tested before it is updated, so the
`return` itself is never flagged). -/
def findUnreachableInBody (body : List Stmt) : List Nat :=
  (body.foldl (fun (acc : Bool × List Nat) stmt =>
    let acc1 := if acc.1 then (acc.1, acc.2 ++ [stmt.line]) else acc
    (acc1.1 || stmt.isReturnOrThrow, acc1.2)) (false, [])).2

/-- `ASTParser.findUnreachableCode` over all `Function` nodes of a file:
a `none` body models `!t.isBlockStatement(body)` (expression-bodied
arrow function — skipped). -/
def findUnreachableCode (functionBodies : List (Option (List Stmt))) :
    List Nat :=
  functionBodies.foldl (fun acc body =>
    match body with
    | none => acc
    | some stmts => acc ++ findUnreachableInBody stmts) []

/-- One declaration node met by the `ASTParser.findUnusedVariables`
traversal: a `VariableDeclarator` with an identifier pattern, or a named
`FunctionDeclaration` together with whether its parent is `Program`
(top level).  `referenced` is the scope binding's reference flag. -/
inductive DeclNode
  | varDecl (name : String) (line : Nat) (referenced : Bool)
  | funDecl (name : String) (line : Nat) (referenced : Bool)
      (parentIsProgram : Bool)
deriving Repr, DecidableEq

/-- `ASTParser.findUnusedVariables`: unreferenced variable declarators,
and unreferenced function declarations whose parent is `Program`. -/
def findUnusedVariables (decls : List DeclNode) : List (String × Nat) :=
  decls.foldl (fun acc d =>
    match d with
    | .varDecl name line referenced =>
      if referenced then acc else acc ++ [(name, line)]
    | .funDecl name line referenced parentIsProgram =>
      if !referenced && parentIsProgram then acc ++ [(name, line)]
      else acc) []

/-- The `type` field of `DeadCodeIssue` in `src/types.ts`:
`'unreachable' | 'unused-var' | 'empty-catch' | 'unused-function'`. -/
inductive DeadCodeKind
  | unreachable
  | unusedVar
  | emptyCatch
  | unusedFunction
deriving Repr, DecidableEq

/-- The `DeadCodeIssue` record of `src/types.ts` (without the optional
`code` excerpt, which `detectInFile` never sets). -/
structure DeadCodeIssue where
  file : String
  line : Nat
  kind : DeadCodeKind
  description : String
deriving Repr, DecidableEq

/-- The per-file syntactic facts `DeadCodeDetector.detectInFile` consumes
after a successful read and parse. -/
structure DeadCodeFacts where
  functionBodies : List (Option (List Stmt))
  declarations : List DeclNode
  emptyCatchLines : List Nat
deriving Repr

/-- `DeadCodeDetector.detectInFile`: unreachable statements, then
zero-reference bindings (all with kind `unused-var`), then empty catch
clauses.  `none` models the `catch` branch: skip the file silently. -/
def detectInFile (filePath : String) (outcome : Option DeadCodeFacts) :
    List DeadCodeIssue :=
  match outcome with
  | none => []
  | some facts =>
    let issues := (findUnreachableCode facts.functionBodies).foldl
      (fun acc line =>
        acc ++ [⟨filePath, line, DeadCodeKind.unreachable,
                 "Unreachable code after return/throw statement"⟩]) []
    let issues := (findUnusedVariables facts.declarations).foldl
      (fun acc item =>
        acc ++ [⟨filePath, item.2, DeadCodeKind.unusedVar,
                 "Unused variable " ++ item.1⟩]) issues
    (facts.emptyCatchLines).foldl
      (fun acc line =>
        acc ++ [⟨filePath, line, DeadCodeKind.emptyCatch,
                 "Empty catch block - errors are silently ignored"⟩]) issues

/-- `DeadCodeDetector.detectInFiles`: concatenate the per-file results. -/
def detectInFiles (files : List (String × Option DeadCodeFacts)) :
    List DeadCodeIssue :=
  files.foldl (fun acc f => acc ++ detectInFile f.1 f.2) []

/-! ### Dependency cross-checker (`src/core/configAnalyzer.ts`) -/

/-- The root package name of an import source
(`ConfigAnalyzer.analyzePackageJson`): for a scoped name starting with
`@`, the first two `/`-segments joined; otherwise the first segment. -/
def pkgRootOf (source : String) : String :=
  if jsStartsWith source "@" then
    joinSlash ((jsSplitSlash source).take 2)
  else
    ((jsSplitSlash source).headD "")

/-- The `allImports` set: roots of all import sources across all
parseable files, keeping only roots that do not start with `.` or `/`. -/
def collectImportRoots (sources : List String) : List String :=
  sources.foldl (fun acc source =>
    let pkgName := pkgRootOf source
    if !(jsStartsWith pkgName ".") && !(jsStartsWith pkgName "/") then
      insertSet acc pkgName
    else acc) []

/-- The skip list of build/tooling packages in
`ConfigAnalyzer.analyzePackageJson`. -/
def skipList : List String :=
  ["typescript", "eslint", "prettier", "jest", "vitest", "vite",
   "webpack", "rollup", "esbuild", "@types/"]

/-- The `type` field of `DependencyIssue` in `src/types.ts`. -/
inductive DepIssueKind
  | unused
  | missing
deriving Repr, DecidableEq

/-- The `DependencyIssue` record of `src/types.ts`. -/
structure DependencyIssue where
  name : String
  kind : DepIssueKind
  installedVersion : Option String
deriving Repr, DecidableEq

/-- First value stored under a key in an object seen as an entry list. -/
def lookupEntry (entries : List (String × String)) (k : String) :
    Option String :=
  (entries.find? (fun e => e.1 == k)).map (fun e => e.2)

/-- JavaScript object spread `{...a, ...b}`: keys of `a` in order with
`b`'s value where `b` also has the key, then the keys only `b` has. -/
def spreadMerge (a b : List (String × String)) : List (String × String) :=
  (a.map (fun e => (e.1, (lookupEntry b e.1).getD e.2))) ++
    b.filter (fun e => (lookupEntry a e.1).isNone)

/-- The unused-dependency loop of `ConfigAnalyzer.analyzePackageJson`:
a declared entry is reported when its name is not among the used import
roots and no skip-list entry occurs inside the name (JavaScript
`depName.includes(skip)`). -/
def unusedDependencies (dependencies : List (String × String))
    (allImports : List String) : List DependencyIssue :=
  dependencies.foldl (fun acc dep =>
    if allImports.contains dep.1 then acc
    else if skipList.any (fun skip => strIncludes dep.1 skip) then acc
    else acc ++ [⟨dep.1, DepIssueKind.unused, some dep.2⟩]) []

/-- The missing-dependency loop of `ConfigAnalyzer.analyzePackageJson`:
a used import root is reported when `dependencies[importedPkg]` is falsy,
i.e. the key is absent or its version string is empty. -/
def missingDependencies (dependencies : List (String × String))
    (allImports : List String) : List DependencyIssue :=
  allImports.foldl (fun acc importedPkg =>
    match lookupEntry dependencies importedPkg with
    | none => acc ++ [⟨importedPkg, DepIssueKind.missing, none⟩]
    | some version =>
      if version == "" then acc ++ [⟨importedPkg, DepIssueKind.missing, none⟩]
      else acc) []

/-- The manifest as read by `FileUtils.getPackageJson`. -/
structure PackageJson where
  dependencies : List (String × String)
  devDependencies : List (String × String)
deriving Repr

/-- The dependency part of `ConfigAnalyzer.analyzePackageJson`:
`none` models a missing/unreadable manifest (empty result lists).
`sources` are the raw sources of all import declarations found across the
project's parseable files, in scan order. -/
def analyzePackageJson (pkg : Option PackageJson) (sources : List String) :
    List DependencyIssue × List DependencyIssue :=
  match pkg with
  | none => ([], [])
  | some p =>
    let allImports := collectImportRoots sources
    let dependencies := spreadMerge p.dependencies p.devDependencies
    (unusedDependencies dependencies allImports,
     missingDependencies dependencies allImports)

/-! ### Spec-side predicates and concrete fixtures -/

/-- The symmetry-by-multiplicity invariant of the built graph: for any
two nodes found in the map, the number of occurrences of `b` in `a`'s
`imports` equals the number of occurrences of `a` in `b`'s `importedBy`. -/
def CountSym (m : List DependencyNode) : Prop :=
  ∀ a b na nb, findNode m a = some na → findNode m b = some nb →
    na.imports.count b = nb.importedBy.count a

/-- The set-semantics property claimed for built graphs: every target
appears at most once in each node's `imports` and every importer at most
once in its `importedBy`. -/
def NodeDedupProp (m : List DependencyNode) : Prop :=
  ∀ n ∈ m, n.imports.Nodup ∧ n.importedBy.Nodup

/-- Spec-side description of the unreachable scan (from the spec's
words): the flagged lines are exactly the lines of the statements
textually following a `return`/`throw` at the same block-nesting level,
i.e. every statement after the first `return`/`throw` of the block. -/
def unreachableSpecLines : List Stmt → List Nat
  | [] => []
  | s :: rest =>
    if s.isReturnOrThrow then rest.map Stmt.line else unreachableSpecLines rest

/-- The graph of a 3-node import ring `a → b → c → a`, in build order. -/
def ringGraph (a b c : String) : List DependencyNode :=
  [⟨a, [b], [c], []⟩, ⟨b, [c], [a], []⟩, ⟨c, [a], [b], []⟩]

/-- Fixture for the symmetry witness: `/a.ts` has one import statement,
of source `./b`; `/b.ts` has none. -/
def c1facts : String → Option FileFacts := fun f =>
  if f = "/a.ts" then some ⟨["./b"], []⟩
  else if f = "/b.ts" then some ⟨[], []⟩
  else none

/-- Resolver fixture: `./b` resolves to `/b.ts`. -/
def c1resolve : String → String → Option String := fun _ src =>
  if src = "./b" then some "/b.ts" else none

/-- Fixture for the duplicate-edge counterexample: `/a.ts` imports the
same source `./b` through two import statements. -/
def c2facts : String → Option FileFacts := fun f =>
  if f = "/a.ts" then some ⟨["./b", "./b"], []⟩
  else if f = "/b.ts" then some ⟨[], []⟩
  else none

/-- Resolver fixture: `./b` resolves to `/b.ts`. -/
def c2resolve : String → String → Option String := fun _ src =>
  if src = "./b" then some "/b.ts" else none

/-- Identifier occurrences of the moment/lodash fixture file: the
two import-binding sites, then one real reference to `lodash` only. -/
def c3occurrences : List IdentOccurrence :=
  [⟨"moment", false, false, true⟩, ⟨"lodash", false, false, true⟩,
   ⟨"lodash", false, false, false⟩]

/-- Import declarations of the moment/lodash fixture file. -/
def c3imports : List ImportInfo :=
  [⟨"moment", ["moment"], 1⟩, ⟨"lodash", ["lodash"], 2⟩]

/-- Dead-code facts of a file whose only declaration is a module-scope
(`parent == Program`) function declaration with zero references. -/
def c4facts : DeadCodeFacts :=
  ⟨[], [.funDecl "unusedFunction" 22 false true], []⟩

/-- Manifest fixture: only `axios` version `1.0.0` is declared. -/
def c5pkg : PackageJson := ⟨[("axios", "1.0.0")], []⟩

/-- Import sources fixture: some file imports the undeclared `date-fns`;
nobody imports `axios`. -/
def c5sources : List String := ["date-fns", "./utils"]

/-- Dead-code facts of a file with a single function whose body is
`return true; console.log(x);` (a return on line 1, then one more
statement on line 2). -/
def c7facts : DeadCodeFacts :=
  ⟨[some [⟨true, 1⟩, ⟨false, 2⟩]], [], []⟩

/-! ### Generic loop lemmas -/

/-- A fold whose step only appends is the accumulator followed by the
concatenated per-element contributions. -/
theorem foldl_append_flatMap {α β : Type} (xs : List α) (g : α → List β) :
    ∀ acc : List β,
      xs.foldl (fun acc x => acc ++ g x) acc = acc ++ xs.flatMap g := by
  induction xs with
  | nil => intro acc; simp
  | cons x xs ih =>
    intro acc
    simp only [List.foldl_cons, List.flatMap_cons, ih, List.append_assoc]

/-- Emitting a singleton when a test fails is filtering then mapping. -/
theorem flatMap_ite_eq_filter_map {α β : Type} (xs : List α) (p : α → Bool)
    (f : α → β) :
    xs.flatMap (fun x => if p x then [] else [f x])
      = (xs.filter (fun x => !p x)).map f := by
  induction xs with
  | nil => rfl
  | cons x xs ih => cases hp : p x <;> simp [hp, ih]

/-- Emitting a singleton when a test holds is filtering then mapping. -/
theorem flatMap_ite_pos_eq_filter_map {α β : Type} (xs : List α) (p : α → Bool)
    (f : α → β) :
    xs.flatMap (fun x => if p x then [f x] else [])
      = (xs.filter p).map f := by
  induction xs with
  | nil => rfl
  | cons x xs ih => cases hp : p x <;> simp [hp, ih]

/-- Always emitting a singleton is mapping. -/
theorem flatMap_singleton_eq_map {α β : Type} (xs : List α) (f : α → β) :
    xs.flatMap (fun x => [f x]) = xs.map f := by
  induction xs with
  | nil => rfl
  | cons x xs ih => simp [ih]

/-! ### Node-map lemmas -/

/-- A node found under key `k` has path `k`. -/
theorem findNode_path {m : List DependencyNode} {k : String}
    {n : DependencyNode} (h : findNode m k = some n) : n.path = k := by
  have h2 := List.find?_some h
  simpa using h2

/-- A node found in the map is a member of the map. -/
theorem findNode_mem {m : List DependencyNode} {k : String}
    {n : DependencyNode} (h : findNode m k = some n) : n ∈ m :=
  List.mem_of_find?_eq_some h

/-- Lookup after a path-preserving update: the looked-up node is the
original one, transformed when its path is the updated key. -/
theorem findNode_updateNode (m : List DependencyNode) (k a : String)
    (f : DependencyNode → DependencyNode) (hf : ∀ n, (f n).path = n.path) :
    findNode (updateNode m k f) a
      = (findNode m a).map (fun n => if n.path == k then f n else n) := by
  induction m with
  | nil => rfl
  | cons n m ih =>
    have hpath : (if n.path == k then f n else n).path = n.path := by
      by_cases h : (n.path == k) = true <;> simp [h, hf]
    simp only [findNode, updateNode, List.map_cons, List.find?_cons] at *
    rw [hpath]
    cases ha : (n.path == a) with
    | true => simp
    | false => simpa using ih

/-- Lookup after the symmetric edge insertion `A → B`: the node found
under `a` gains `B` at the end of `imports` exactly when `a = A`, and
gains `A` at the end of `importedBy` exactly when `a = B`. -/
theorem findNode_insertDependencyEdge (m : List DependencyNode)
    (A B a : String) :
    findNode (insertDependencyEdge m A B) a
      = (findNode m a).map (fun n =>
          { n with imports := n.imports ++ if a = A then [B] else [],
                   importedBy := n.importedBy ++ if a = B then [A] else [] })
    := by
  unfold insertDependencyEdge
  rw [findNode_updateNode
        (updateNode m A (fun n => { n with imports := n.imports ++ [B] }))
        B a (fun n => { n with importedBy := n.importedBy ++ [A] })
        (fun n => rfl),
      findNode_updateNode m A a
        (fun n => { n with imports := n.imports ++ [B] }) (fun n => rfl)]
  cases h : findNode m a with
  | none => rfl
  | some x =>
    have hx : x.path = a := findNode_path h
    simp only [Option.map_some']
    by_cases hA : a = A
    · by_cases hB : a = B
      · simp [hx, hA, hB, hA.symm.trans hB]
      · simp [hx, hA, hB, show ¬ A = B from fun e => hB (hA.trans e)]
    · by_cases hB : a = B
      · simp [hx, hA, hB, show ¬ B = A from fun e => hA (hB.trans e)]
      · simp [hx, hA, hB]
        rw [← hx]

/-- A path-, imports- and importedBy-preserving update preserves the
multiplicity-symmetry invariant. -/
theorem countSym_updateNode (m : List DependencyNode) (k : String)
    (f : DependencyNode → DependencyNode) (hp : ∀ n, (f n).path = n.path)
    (hi : ∀ n, (f n).imports = n.imports)
    (hb : ∀ n, (f n).importedBy = n.importedBy)
    (h : CountSym m) : CountSym (updateNode m k f) := by
  intro a b na nb hna hnb
  rw [findNode_updateNode m k a f hp] at hna
  rw [findNode_updateNode m k b f hp] at hnb
  cases hx : findNode m a with
  | none => rw [hx] at hna; exact absurd hna (by simp)
  | some x =>
    cases hy : findNode m b with
    | none => rw [hy] at hnb; exact absurd hnb (by simp)
    | some y =>
      rw [hx] at hna; rw [hy] at hnb
      simp only [Option.map_some', Option.some.injEq] at hna hnb
      have e1 : na.imports = x.imports := by
        rw [← hna]; by_cases hc : (x.path == k) = true <;> simp [hc, hi]
      have e2 : nb.importedBy = y.importedBy := by
        rw [← hnb]; by_cases hc : (y.path == k) = true <;> simp [hc, hb]
      rw [e1, e2]
      exact h a b x y hx hy

/-- The symmetric edge insertion preserves the multiplicity-symmetry
invariant: both sides of the new edge gain exactly one occurrence. -/
theorem countSym_insertDependencyEdge (m : List DependencyNode)
    (A B : String) (h : CountSym m) :
    CountSym (insertDependencyEdge m A B) := by
  intro a b na nb hna hnb
  rw [findNode_insertDependencyEdge m A B a] at hna
  rw [findNode_insertDependencyEdge m A B b] at hnb
  cases hx : findNode m a with
  | none => rw [hx] at hna; exact absurd hna (by simp)
  | some x =>
    cases hy : findNode m b with
    | none => rw [hy] at hnb; exact absurd hnb (by simp)
    | some y =>
      rw [hx] at hna; rw [hy] at hnb
      simp only [Option.map_some', Option.some.injEq] at hna hnb
      have e1 : na.imports = x.imports ++ if a = A then [B] else [] := by
        rw [← hna]
      have e2 : nb.importedBy = y.importedBy ++ if b = B then [A] else [] := by
        rw [← hnb]
      have hbase := h a b x y hx hy
      rw [e1, e2, List.count_append, List.count_append, hbase]
      by_cases hA : a = A
      · by_cases hB : b = B
        · subst hA; subst hB; simp
        · rw [if_pos hA, if_neg hB]
          simp [List.count_singleton,
            beq_eq_false_iff_ne.mpr (Ne.symm hB)]
      · by_cases hB : b = B
        · rw [if_neg hA, if_pos hB]
          simp [List.count_singleton,
            beq_eq_false_iff_ne.mpr (Ne.symm hA)]
        · rw [if_neg hA, if_neg hB]
          simp

/-- One edge-loop iteration preserves the invariant. -/
theorem countSym_processEdgeStep (resolve : String → String → Option String)
    (filePath : String) (m : List DependencyNode) (src : String)
    (h : CountSym m) : CountSym (processEdgeStep resolve filePath m src) := by
  unfold processEdgeStep
  cases resolve filePath src with
  | none => exact h
  | some rp =>
    dsimp only
    by_cases hrp : (findNode m rp).isSome = true
    · rw [if_pos hrp]
      exact countSym_insertDependencyEdge m filePath rp h
    · rw [if_neg hrp]
      exact h

/-- The whole edge loop of one file preserves the invariant. -/
theorem countSym_processEdges (resolve : String → String → Option String)
    (filePath : String) (srcs : List String) :
    ∀ m, CountSym m → CountSym (processEdges resolve filePath srcs m) := by
  induction srcs with
  | nil => intro m h; exact h
  | cons s rest ih =>
    intro m h
    simp only [processEdges, List.foldl_cons] at *
    exact ih _ (countSym_processEdgeStep resolve filePath m s h)

/-- Processing one file preserves the invariant (the final exports
assignment touches neither `imports` nor `importedBy`). -/
theorem countSym_processFile (facts : String → Option FileFacts)
    (resolve : String → String → Option String)
    (m : List DependencyNode) (filePath : String)
    (h : CountSym m) : CountSym (processFile facts resolve m filePath) := by
  unfold processFile
  cases findNode m filePath with
  | none => exact h
  | some _ =>
    cases facts filePath with
    | none => exact h
    | some f =>
      exact countSym_updateNode _ filePath _ (fun n => rfl) (fun n => rfl)
        (fun n => rfl)
        (countSym_processEdges resolve filePath f.importSources m h)

/-- After the node phase every node has empty `imports` and
`importedBy`. -/
theorem initNodes_empty (files : List String) :
    ∀ n ∈ initNodes files, n.imports = [] ∧ n.importedBy = [] := by
  have aux : ∀ (fs : List String) (acc : List DependencyNode),
      (∀ n ∈ acc, n.imports = [] ∧ n.importedBy = []) →
      ∀ n ∈ fs.foldl (fun acc file =>
          if (findNode acc file).isSome then
            updateNode acc file (fun _ => ⟨file, [], [], []⟩)
          else acc ++ [⟨file, [], [], []⟩]) acc,
        n.imports = [] ∧ n.importedBy = [] := by
    intro fs
    induction fs with
    | nil => intro acc hacc; exact hacc
    | cons f fs ih =>
      intro acc hacc
      simp only [List.foldl_cons]
      apply ih
      intro n hn
      by_cases hf : (findNode acc f).isSome = true
      · simp only [if_pos hf, updateNode, List.mem_map] at hn
        rcases hn with ⟨x, hx, rfl⟩
        by_cases hc : (x.path == f) = true
        · simp [hc]
        · simp only [hc, if_false]
          exact hacc x hx
      · simp only [if_neg hf, List.mem_append, List.mem_singleton] at hn
        rcases hn with hx | rfl
        · exact hacc n hx
        · simp
  exact aux files [] (by intro n hn; cases hn)

/-- The node phase establishes the invariant. -/
theorem countSym_initNodes (files : List String) :
    CountSym (initNodes files) := by
  intro a b na nb hna hnb
  obtain ⟨hia, _⟩ := initNodes_empty files na (findNode_mem hna)
  obtain ⟨_, hbb⟩ := initNodes_empty files nb (findNode_mem hnb)
  rw [hia, hbb]
  simp

/-- Every graph produced by `GraphBuilder.build` satisfies the
multiplicity-symmetry invariant. -/
theorem countSym_build (facts : String → Option FileFacts)
    (resolve : String → String → Option String) (files : List String) :
    CountSym (build facts resolve files) := by
  unfold build
  have aux : ∀ (fs : List String) (m : List DependencyNode), CountSym m →
      CountSym (fs.foldl (processFile facts resolve) m) := by
    intro fs
    induction fs with
    | nil => intro m h; exact h
    | cons f fs ih =>
      intro m h
      simp only [List.foldl_cons]
      exact ih _ (countSym_processFile facts resolve m f h)
  exact aux files _ (countSym_initNodes files)

/-! ### Claim C1 -/

/-- **C1.** For every graph produced by `GraphBuilder.build` — for any
per-file facts, any resolver oracle and any file set — and every pair of
nodes `A`, `B` found in it, `B ∈ A.imports` if and only if
`A ∈ B.importedBy`: edges are only ever inserted through the single
symmetric operation that pushes both sides together. -/
theorem build_graph_symmetry (facts : String → Option FileFacts)
    (resolve : String → String → Option String) (files : List String)
    (a b : String) (na nb : DependencyNode)
    (hna : findNode (build facts resolve files) a = some na)
    (hnb : findNode (build facts resolve files) b = some nb) :
    b ∈ na.imports ↔ a ∈ nb.importedBy := by
  have hcount := countSym_build facts resolve files a b na nb hna hnb
  constructor
  · intro hmem
    exact List.count_pos_iff.mp (hcount ▸ List.count_pos_iff.mpr hmem)
  · intro hmem
    exact List.count_pos_iff.mp (hcount.symm ▸ List.count_pos_iff.mpr hmem)

/-- Witness for C1 at a concrete two-file build in which the file
`/a.ts` imports `./b`, which resolves to `/b.ts`. -/
theorem build_graph_symmetry_witness :
    "/b.ts" ∈ (DependencyNode.mk "/a.ts" ["/b.ts"] [] []).imports ↔
      "/a.ts" ∈ (DependencyNode.mk "/b.ts" [] ["/a.ts"] []).importedBy :=
  build_graph_symmetry c1facts c1resolve ["/a.ts", "/b.ts"] "/a.ts" "/b.ts"
    ⟨"/a.ts", ["/b.ts"], [], []⟩ ⟨"/b.ts", [], ["/a.ts"], []⟩
    (by decide) (by decide)

/-! ### Claim C2 -/

/-- **C2 counterexample.** Set semantics fails on the code: when
`/a.ts` imports the same resolved target `/b.ts` through two import
statements, the built graph holds `/b.ts` twice in `/a.ts`'s `imports`
(and `/a.ts` twice in `/b.ts`'s `importedBy`), because `processFile`
pushes onto plain arrays without any membership check. -/
theorem build_dedup_counterexample :
    ¬ NodeDedupProp (build c2facts c2resolve ["/a.ts", "/b.ts"]) := by
  intro h
  have hdup := (h ⟨"/a.ts", ["/b.ts", "/b.ts"], [], []⟩ (by decide)).1
  simp [List.Nodup] at hdup

/-- **C2 amended.** The builder keeps list (multiset) semantics: any
file importing the same resolved target through several import
statements contributes one entry per statement, on both sides.  The two
sides stay consistent: for every pair of nodes, the multiplicity of `B`
in `A.imports` equals the multiplicity of `A` in `B.importedBy`. -/
theorem build_edge_multiplicity_symmetry (facts : String → Option FileFacts)
    (resolve : String → String → Option String) (files : List String)
    (a b : String) (na nb : DependencyNode)
    (hna : findNode (build facts resolve files) a = some na)
    (hnb : findNode (build facts resolve files) b = some nb) :
    na.imports.count b = nb.importedBy.count a :=
  countSym_build facts resolve files a b na nb hna hnb

/-- Witness for the amended C2 at the double-import build: both
multiplicities are 2. -/
theorem build_edge_multiplicity_symmetry_witness :
    (["/b.ts", "/b.ts"] : List String).count "/b.ts"
      = (["/a.ts", "/a.ts"] : List String).count "/a.ts" :=
  build_edge_multiplicity_symmetry c2facts c2resolve ["/a.ts", "/b.ts"]
    "/a.ts" "/b.ts"
    ⟨"/a.ts", ["/b.ts", "/b.ts"], [], []⟩ ⟨"/b.ts", [], ["/a.ts", "/a.ts"], []⟩
    (by decide) (by decide)

/-! ### Characterizations of the per-file classifiers -/

/-- `UnusedFinder.findInFile` on parseable facts filters each import's
local names against the used-identifier set. -/
theorem findInFile_eq (fp : String) (facts : UnusedFinderFacts) :
    findInFile fp (some facts)
      = facts.imports.flatMap (fun imp =>
          (imp.specifiers.filter
            (fun s => !(facts.usedIdentifiers.contains s))).map
            (fun s => ⟨fp, imp.line, s, imp.source⟩)) := by
  have inner_eq : ∀ (imp : ImportInfo) (acc : List UnusedImport),
      imp.specifiers.foldl (fun unused specifier =>
        if facts.usedIdentifiers.contains specifier then unused
        else unused ++ [⟨fp, imp.line, specifier, imp.source⟩]) acc
      = acc ++ (imp.specifiers.filter
          (fun s => !(facts.usedIdentifiers.contains s))).map
          (fun s => ⟨fp, imp.line, s, imp.source⟩) := by
    intro imp acc
    rw [List.foldl_ext _ (fun (unused : List UnusedImport) specifier =>
          unused ++ if facts.usedIdentifiers.contains specifier then []
            else [⟨fp, imp.line, specifier, imp.source⟩]) acc
          (by intro u s _
              by_cases hc : s ∈ facts.usedIdentifiers <;> simp [hc]),
        foldl_append_flatMap, flatMap_ite_eq_filter_map]
  simp only [findInFile]
  rw [List.foldl_ext _ (fun (unused : List UnusedImport) imp =>
        unused ++ (imp.specifiers.filter
          (fun s => !(facts.usedIdentifiers.contains s))).map
          (fun s => ⟨fp, imp.line, s, imp.source⟩)) []
        (by intro acc imp _; exact inner_eq imp acc),
      foldl_append_flatMap]
  simp

/-- `UnusedFinder.findInFiles` concatenates per-file results. -/
theorem findInFiles_eq (files : List (String × Option UnusedFinderFacts)) :
    findInFiles files = files.flatMap (fun f => findInFile f.1 f.2) := by
  unfold findInFiles
  rw [foldl_append_flatMap]
  simp

/-- `DeadCodeDetector.detectInFile` on parseable facts: unreachable
issues, then unused-binding issues (kind `unused-var`), then empty-catch
issues. -/
theorem detectInFile_eq (fp : String) (facts : DeadCodeFacts) :
    detectInFile fp (some facts)
      = (findUnreachableCode facts.functionBodies).map
          (fun line => ⟨fp, line, DeadCodeKind.unreachable,
            "Unreachable code after return/throw statement"⟩)
        ++ (findUnusedVariables facts.declarations).map
          (fun x => ⟨fp, x.2, DeadCodeKind.unusedVar,
            "Unused variable " ++ x.1⟩)
        ++ facts.emptyCatchLines.map
          (fun line => ⟨fp, line, DeadCodeKind.emptyCatch,
            "Empty catch block - errors are silently ignored"⟩) := by
  simp only [detectInFile]
  rw [foldl_append_flatMap, foldl_append_flatMap, foldl_append_flatMap,
      flatMap_singleton_eq_map, flatMap_singleton_eq_map,
      flatMap_singleton_eq_map]
  simp [List.append_assoc]

/-- `DeadCodeDetector.detectInFiles` concatenates per-file results. -/
theorem detectInFiles_eq (files : List (String × Option DeadCodeFacts)) :
    detectInFiles files = files.flatMap (fun f => detectInFile f.1 f.2) := by
  unfold detectInFiles
  rw [foldl_append_flatMap]
  simp

/-- `ASTParser.findUnusedVariables` emits one entry per unreferenced
variable declarator and per unreferenced top-level function
declaration. -/
theorem findUnusedVariables_eq (decls : List DeclNode) :
    findUnusedVariables decls
      = decls.flatMap (fun d =>
          match d with
          | .varDecl name line referenced =>
            if referenced then [] else [(name, line)]
          | .funDecl name line referenced parentIsProgram =>
            if !referenced && parentIsProgram then [(name, line)] else []) := by
  have hext : ∀ (acc : List (String × Nat)), ∀ d ∈ decls,
      (fun (acc : List (String × Nat)) (d : DeclNode) =>
        match d with
        | .varDecl name line referenced =>
          if referenced then acc else acc ++ [(name, line)]
        | .funDecl name line referenced parentIsProgram =>
          if !referenced && parentIsProgram then acc ++ [(name, line)]
          else acc) acc d
      = acc ++ match d with
        | .varDecl name line referenced =>
          if referenced then [] else [(name, line)]
        | .funDecl name line referenced parentIsProgram =>
          if !referenced && parentIsProgram then [(name, line)] else [] := by
    intro acc d _
    cases d with
    | varDecl n l r => cases r <;> simp
    | funDecl n l r p => cases r <;> cases p <;> simp
  unfold findUnusedVariables
  rw [List.foldl_ext _ _ [] hext, foldl_append_flatMap]
  simp

/-! ### Claim C3 -/

/-- **C3.** The unused-import classifier flags an import specifier's
local name exactly when that name is not in the file's used-identifier
set (an issue is emitted per such specifier, carrying the import's line
and source); and on the moment/lodash fixture — where only `lodash` is
referenced — exactly `moment` is flagged. -/
theorem unusedImport_flag_characterization :
    (∀ (fp : String) (facts : UnusedFinderFacts) (u : UnusedImport),
      u ∈ findInFile fp (some facts) ↔
        ∃ imp ∈ facts.imports, ∃ s, s ∈ imp.specifiers ∧
          facts.usedIdentifiers.contains s = false ∧
          u = ⟨fp, imp.line, s, imp.source⟩) ∧
    findInFile "example.ts"
        (some ⟨c3imports, extractIdentifiers c3occurrences⟩)
      = [⟨"example.ts", 1, "moment", "moment"⟩] := by
  constructor
  · intro fp facts u
    rw [findInFile_eq]
    simp only [List.mem_flatMap, List.mem_map, List.mem_filter,
      Bool.not_eq_true']
    constructor
    · rintro ⟨imp, h1, s, ⟨h2, h3⟩, h4⟩
      exact ⟨imp, h1, s, h2, h3, h4.symm⟩
    · rintro ⟨imp, h1, s, h2, h3, h4⟩
      exact ⟨imp, h1, s, ⟨h2, h3⟩, h4.symm⟩
  · decide

/-! ### Claim C9 -/

/-- **C9.** A file whose read or parse failed (outcome `none`, the
`catch` branch) is skipped and the scan continues: both multi-file
classifiers return exactly the other files' issues, unchanged. -/
theorem parse_failure_skips_file_only :
    (∀ (xs ys : List (String × Option UnusedFinderFacts)) (fp : String),
      findInFiles (xs ++ (fp, none) :: ys) = findInFiles xs ++ findInFiles ys)
    ∧
    (∀ (xs ys : List (String × Option DeadCodeFacts)) (fp : String),
      detectInFiles (xs ++ (fp, none) :: ys)
        = detectInFiles xs ++ detectInFiles ys) := by
  constructor
  · intro xs ys fp
    have h0 : findInFile fp none = [] := rfl
    simp [findInFiles_eq, List.flatMap_append, List.flatMap_cons, h0]
  · intro xs ys fp
    have h0 : detectInFile fp none = [] := rfl
    simp [detectInFiles_eq, List.flatMap_append, List.flatMap_cons, h0]

/-! ### Claim C4 -/

/-- **C4 counterexample.** On a file whose only declaration is a
module-scope function declaration with zero references, the dead-code
detector emits the issue with kind `unused-var` — `unused-function` is
declared in the issue type but never produced by `detectInFile`. -/
theorem unusedFunction_kind_counterexample :
    DeclNode.funDecl "unusedFunction" 22 false true ∈ c4facts.declarations
    ∧ detectInFile "example.ts" (some c4facts)
        = [⟨"example.ts", 22, DeadCodeKind.unusedVar,
            "Unused variable unusedFunction"⟩]
    ∧ ((detectInFile "example.ts" (some c4facts)).map
        DeadCodeIssue.kind).contains DeadCodeKind.unusedFunction = false := by
  refine ⟨by decide, by decide, by decide⟩

/-- **C4 amended.** Every module-scope (`parent == Program`) function
declaration with zero references is reported by the dead-code detector,
but with kind `unused-var` — the same kind used for zero-reference
variable bindings; no issue of kind `unused-function` is ever emitted. -/
theorem topLevel_unused_function_reported_as_unusedVar
    (fp : String) (facts : DeadCodeFacts) (name : String) (line : Nat)
    (hd : DeclNode.funDecl name line false true ∈ facts.declarations) :
    (⟨fp, line, DeadCodeKind.unusedVar, "Unused variable " ++ name⟩ :
        DeadCodeIssue) ∈ detectInFile fp (some facts)
    ∧ ((detectInFile fp (some facts)).map DeadCodeIssue.kind).contains
        DeadCodeKind.unusedFunction = false := by
  constructor
  · rw [detectInFile_eq]
    refine List.mem_append.mpr (Or.inl (List.mem_append.mpr (Or.inr ?_)))
    refine List.mem_map.mpr ⟨(name, line), ?_, rfl⟩
    rw [findUnusedVariables_eq]
    refine List.mem_flatMap.mpr ⟨DeclNode.funDecl name line false true, hd, ?_⟩
    simp
  · rw [List.contains_eq_any_beq]
    refine List.any_eq_false.mpr ?_
    intro k hk
    rw [detectInFile_eq] at hk
    simp only [List.map_append, List.mem_append, List.mem_map] at hk
    rcases hk with (⟨l1, hmem, rfl⟩ | ⟨l1, hmem, rfl⟩) | ⟨l1, hmem, rfl⟩ <;>
      obtain ⟨aelem, _, rfl⟩ := hmem <;> simp [beq_iff_eq]

/-- Witness for the amended C4 at the concrete fixture. -/
theorem topLevel_unused_function_reported_as_unusedVar_witness :
    (⟨"example.ts", 22, DeadCodeKind.unusedVar,
        "Unused variable unusedFunction"⟩ : DeadCodeIssue)
      ∈ detectInFile "example.ts" (some c4facts)
    ∧ ((detectInFile "example.ts" (some c4facts)).map
        DeadCodeIssue.kind).contains DeadCodeKind.unusedFunction = false :=
  topLevel_unused_function_reported_as_unusedVar "example.ts" c4facts
    "unusedFunction" 22 (by decide)

/-! ### Dependency cross-checker characterizations -/

/-- The unused-dependency loop reports exactly the declared entries whose
name is neither among the used import roots nor a skip-list superstring. -/
theorem unusedDependencies_eq (deps : List (String × String))
    (allImports : List String) :
    unusedDependencies deps allImports
      = (deps.filter (fun dep =>
          !(allImports.contains dep.1)
            && !(skipList.any (fun skip => strIncludes dep.1 skip)))).map
          (fun dep => ⟨dep.1, DepIssueKind.unused, some dep.2⟩) := by
  have hext : ∀ (acc : List DependencyIssue), ∀ dep ∈ deps,
      (fun (acc : List DependencyIssue) (dep : String × String) =>
        if allImports.contains dep.1 then acc
        else if skipList.any (fun skip => strIncludes dep.1 skip) then acc
        else acc ++ [⟨dep.1, DepIssueKind.unused, some dep.2⟩]) acc dep
      = acc ++ (if !(allImports.contains dep.1)
            && !(skipList.any (fun skip => strIncludes dep.1 skip)) then
          [⟨dep.1, DepIssueKind.unused, some dep.2⟩] else []) := by
    intro acc dep _
    by_cases h1 : dep.1 ∈ allImports
    · simp [h1]
    · by_cases h2 : skipList.any (fun skip => strIncludes dep.1 skip) = true
      · simp [h1, h2]
      · simp [h1, h2, Bool.eq_false_iff.mpr h2]
  unfold unusedDependencies
  rw [List.foldl_ext _ _ [] hext, foldl_append_flatMap,
    flatMap_ite_pos_eq_filter_map]
  simp

/-- The missing-dependency loop reports exactly the used import roots
whose manifest entry is absent (or falsy, i.e. the empty string). -/
theorem missingDependencies_eq (deps : List (String × String))
    (allImports : List String) :
    missingDependencies deps allImports
      = (allImports.filter (fun p =>
          match lookupEntry deps p with
          | none => true
          | some version => version == "")).map
          (fun p => ⟨p, DepIssueKind.missing, none⟩) := by
  have hext : ∀ (acc : List DependencyIssue), ∀ p ∈ allImports,
      (fun (acc : List DependencyIssue) (importedPkg : String) =>
        match lookupEntry deps importedPkg with
        | none => acc ++ [⟨importedPkg, DepIssueKind.missing, none⟩]
        | some version =>
          if version == "" then
            acc ++ [⟨importedPkg, DepIssueKind.missing, none⟩]
          else acc) acc p
      = acc ++ (if (match lookupEntry deps p with
            | none => true
            | some version => version == "") then
          [⟨p, DepIssueKind.missing, none⟩] else []) := by
    intro acc p _
    dsimp only
    cases hl : lookupEntry deps p with
    | none => simp
    | some version =>
      by_cases hv : version = ""
      · simp [hv]
      · simp [hv, beq_eq_false_iff_ne.mpr hv]
  unfold missingDependencies
  rw [List.foldl_ext _ _ [] hext, foldl_append_flatMap,
    flatMap_ite_pos_eq_filter_map]
  simp

/-! ### Claim C5 -/

/-- **C5.** The dependency cross-checker reports as unused every
declared manifest entry whose name is neither among the used external
roots nor matched by the skip list, and reports as missing every used
external root absent from the declared entries; on the fixture manifest
`{axios: "1.0.0"}` with `date-fns` imported and `axios` never used, the
unused list is exactly `axios` and the missing list is exactly
`date-fns`. -/
theorem dependency_crossCheck_correct :
    (∀ (pkg : PackageJson) (sources : List String) (name version : String),
      (name, version) ∈ spreadMerge pkg.dependencies pkg.devDependencies →
      (collectImportRoots sources).contains name = false →
      skipList.any (fun skip => strIncludes name skip) = false →
      ((analyzePackageJson (some pkg) sources).1.map
          DependencyIssue.name).contains name = true)
    ∧
    (∀ (pkg : PackageJson) (sources : List String) (root : String),
      root ∈ collectImportRoots sources →
      lookupEntry (spreadMerge pkg.dependencies pkg.devDependencies) root
        = none →
      ((analyzePackageJson (some pkg) sources).2.map
          DependencyIssue.name).contains root = true)
    ∧
    analyzePackageJson (some c5pkg) c5sources
      = ([⟨"axios", DepIssueKind.unused, some "1.0.0"⟩],
         [⟨"date-fns", DepIssueKind.missing, none⟩]) := by
  refine ⟨?_, ?_, by decide⟩
  · intro pkg sources name version hmem hroots hskip
    have hstep :
        (analyzePackageJson (some pkg) sources).1
          = unusedDependencies
              (spreadMerge pkg.dependencies pkg.devDependencies)
              (collectImportRoots sources) := rfl
    rw [hstep, unusedDependencies_eq, List.map_map]
    refine List.elem_iff.mpr ?_
    refine List.mem_map.mpr ⟨(name, version), ?_, rfl⟩
    refine List.mem_filter.mpr ⟨hmem, ?_⟩
    simp [hskip]
    intro h
    have hc : (collectImportRoots sources).contains name = true :=
      List.elem_iff.mpr h
    rw [hc] at hroots
    exact Bool.noConfusion hroots
  · intro pkg sources root hroot hlook
    have hstep :
        (analyzePackageJson (some pkg) sources).2
          = missingDependencies
              (spreadMerge pkg.dependencies pkg.devDependencies)
              (collectImportRoots sources) := rfl
    rw [hstep, missingDependencies_eq, List.map_map]
    refine List.elem_iff.mpr ?_
    refine List.mem_map.mpr ⟨root, ?_, rfl⟩
    refine List.mem_filter.mpr ⟨hroot, ?_⟩
    rw [hlook]

/-- Witness for C5 at the fixture: `axios` is reported unused and
`date-fns` is reported missing. -/
theorem dependency_crossCheck_correct_witness :
    ((analyzePackageJson (some c5pkg) c5sources).1.map
        DependencyIssue.name).contains "axios" = true
    ∧ ((analyzePackageJson (some c5pkg) c5sources).2.map
        DependencyIssue.name).contains "date-fns" = true :=
  ⟨dependency_crossCheck_correct.1 c5pkg c5sources "axios" "1.0.0"
      (by decide) (by decide) (by decide),
   dependency_crossCheck_correct.2.1 c5pkg c5sources "date-fns"
      (by decide) (by decide)⟩

/-! ### Claim C7 -/

/-- Once the flag is set, the body scan emits every remaining line. -/
theorem unreachable_fold_flagTrue (body : List Stmt) :
    ∀ acc : List Nat,
      (body.foldl (fun (acc : Bool × List Nat) stmt =>
        let acc1 := if acc.1 then (acc.1, acc.2 ++ [stmt.line]) else acc
        (acc1.1 || stmt.isReturnOrThrow, acc1.2)) (true, acc)).2
      = acc ++ body.map Stmt.line := by
  induction body with
  | nil => intro acc; simp
  | cons s rest ih =>
    intro acc
    rw [List.foldl_cons]
    simpa [List.append_assoc] using ih (acc ++ [s.line])

/-- Before the first `return`/`throw` the scan emits nothing; afterwards
it emits everything: the fold equals the spec-side description. -/
theorem unreachable_fold_flagFalse (body : List Stmt) :
    ∀ acc : List Nat,
      (body.foldl (fun (acc : Bool × List Nat) stmt =>
        let acc1 := if acc.1 then (acc.1, acc.2 ++ [stmt.line]) else acc
        (acc1.1 || stmt.isReturnOrThrow, acc1.2)) (false, acc)).2
      = acc ++ unreachableSpecLines body := by
  induction body with
  | nil => intro acc; simp [unreachableSpecLines]
  | cons s rest ih =>
    intro acc
    rw [List.foldl_cons]
    simp only [unreachableSpecLines]
    cases hs : s.isReturnOrThrow with
    | false => simpa using ih acc
    | true => simpa using unreachable_fold_flagTrue rest acc

/-- **C7.** For every function body, the scan flags exactly the
statements textually following a `return`/`throw` at the same
block-nesting level (one line per such statement); and a body
`return true; console.log(x);` yields exactly one `unreachable` issue,
at the line of the `console.log` statement. -/
theorem unreachable_one_issue_per_following_statement :
    (∀ body : List Stmt,
      findUnreachableInBody body = unreachableSpecLines body)
    ∧ detectInFile "f.ts" (some c7facts)
      = [⟨"f.ts", 2, DeadCodeKind.unreachable,
          "Unreachable code after return/throw statement"⟩] := by
  constructor
  · intro body
    unfold findUnreachableInBody
    simpa using unreachable_fold_flagFalse body []
  · decide

/-! ### Claim C8 -/

/-- `getUnusedFiles` reports exactly the paths of nodes with no
entry-point fragment in their path and an empty `importedBy`. -/
theorem getUnusedFiles_eq (m : List DependencyNode) (entry : List String) :
    getUnusedFiles m entry
      = (m.filter (fun n =>
          !(entry.any (fun e => strIncludes n.path e))
            && (n.importedBy.length == 0))).map DependencyNode.path := by
  have hext : ∀ (acc : List String), ∀ n ∈ m,
      (fun (unused : List String) (n : DependencyNode) =>
        if entry.any (fun e => strIncludes n.path e) then unused
        else if n.importedBy.length == 0 then unused ++ [n.path]
        else unused) acc n
      = acc ++ (if !(entry.any (fun e => strIncludes n.path e))
            && (n.importedBy.length == 0) then [n.path] else []) := by
    intro acc n _
    dsimp only
    by_cases h1 : entry.any (fun e => strIncludes n.path e) = true
    · simp [h1]
    · by_cases h2 : n.importedBy.length = 0
      · simp [h1, h2, Bool.eq_false_iff.mpr h1]
      · simp [h1, h2, Bool.eq_false_iff.mpr h1]
  unfold getUnusedFiles
  rw [List.foldl_ext _ _ [] hext, foldl_append_flatMap,
    flatMap_ite_pos_eq_filter_map]
  simp

/-- **C8.** A file whose path contains any of the configured entry-point
name fragments as a substring never appears in the unused-file output,
whatever the graph — in particular even with zero inbound edges. -/
theorem entryPoint_fragment_never_unused (g : List DependencyNode)
    (p : String)
    (hfrag : staleDetectorEntryPoints.any
      (fun entry => strIncludes p entry) = true) :
    (getUnusedFiles g staleDetectorEntryPoints).contains p = false := by
  rw [getUnusedFiles_eq]
  refine Bool.eq_false_iff.mpr ?_
  intro hc
  rcases List.mem_map.mp (List.elem_iff.mp hc) with ⟨n, hn, rfl⟩
  have hcond := (List.mem_filter.mp hn).2
  rw [Bool.and_eq_true] at hcond
  have h1 : staleDetectorEntryPoints.any
      (fun entry => strIncludes n.path entry) = false := by
    simpa using hcond.1
  rw [h1] at hfrag
  exact Bool.noConfusion hfrag

/-- Witness for C8: a file literally named `index.ts` with zero inbound
edges is never reported. -/
theorem entryPoint_fragment_never_unused_witness :
    (getUnusedFiles [⟨"index.ts", [], [], []⟩]
      staleDetectorEntryPoints).contains "index.ts" = false :=
  entryPoint_fragment_never_unused [⟨"index.ts", [], [], []⟩] "index.ts"
    (by decide)

/-! ### Claim C10 -/

/-- **C10.** Skip-list exemption is by substring containment, not exact
match: a declared dependency whose name contains any skip-list entry as
a substring never appears in the unused-dependency list, whatever the
manifest and import sources. -/
theorem skipList_substring_never_unused (pkg : PackageJson)
    (sources : List String) (name : String)
    (hskip : skipList.any (fun skip => strIncludes name skip) = true) :
    ((analyzePackageJson (some pkg) sources).1.map
        DependencyIssue.name).contains name = false := by
  have hstep :
      (analyzePackageJson (some pkg) sources).1
        = unusedDependencies
            (spreadMerge pkg.dependencies pkg.devDependencies)
            (collectImportRoots sources) := rfl
  rw [hstep, unusedDependencies_eq, List.map_map]
  refine Bool.eq_false_iff.mpr ?_
  intro hc
  rcases List.mem_map.mp (List.elem_iff.mp hc) with ⟨dep, hdep, heq⟩
  have heq1 : dep.1 = name := heq
  have hcond := (List.mem_filter.mp hdep).2
  rw [Bool.and_eq_true] at hcond
  have h2 : skipList.any (fun skip => strIncludes dep.1 skip) = false := by
    simpa using hcond.2
  rw [heq1, hskip] at h2
  exact Bool.noConfusion h2

/-- Witness for C10: declared-but-never-imported `jest-axe` (containing
skip entry `jest`) is not reported as unused. -/
theorem skipList_substring_never_unused_witness :
    ((analyzePackageJson (some ⟨[("jest-axe", "1.0")], []⟩) ["react"]).1.map
        DependencyIssue.name).contains "jest-axe" = false :=
  skipList_substring_never_unused ⟨[("jest-axe", "1.0")], []⟩ ["react"]
    "jest-axe" (by decide)

/-! ### Claim C6 -/

set_option maxHeartbeats 4000000 in
/-- **C6.** For every graph consisting of a 3-node import ring
`a → b → c → a` (the three ring nodes in any map order),
`findCircularDependencies` returns at least one cycle listing all three
nodes in import order (some rotation of `[a, b, c]`). -/
theorem ring_cycle_detected (g : List DependencyNode) (a b c : String)
    (hab : a ≠ b) (hac : a ≠ c) (hbc : b ≠ c)
    (hperm : g.Perm (ringGraph a b c)) :
    ([[a, b, c], [b, c, a], [c, a, b]].any
      (fun cyc => (findCircularDependencies g).contains cyc)) = true := by
  have h1 : (a == b) = false := beq_eq_false_iff_ne.mpr hab
  have h2 : (b == a) = false := beq_eq_false_iff_ne.mpr (Ne.symm hab)
  have h3 : (a == c) = false := beq_eq_false_iff_ne.mpr hac
  have h4 : (c == a) = false := beq_eq_false_iff_ne.mpr (Ne.symm hac)
  have h5 : (b == c) = false := beq_eq_false_iff_ne.mpr hbc
  have h6 : (c == b) = false := beq_eq_false_iff_ne.mpr (Ne.symm hbc)
  have hmem : g ∈ (ringGraph a b c).permutations' :=
    List.mem_permutations'.mpr hperm
  have hperms : (ringGraph a b c).permutations'
      = [[⟨a, [b], [c], []⟩, ⟨b, [c], [a], []⟩, ⟨c, [a], [b], []⟩],
         [⟨b, [c], [a], []⟩, ⟨a, [b], [c], []⟩, ⟨c, [a], [b], []⟩],
         [⟨b, [c], [a], []⟩, ⟨c, [a], [b], []⟩, ⟨a, [b], [c], []⟩],
         [⟨a, [b], [c], []⟩, ⟨c, [a], [b], []⟩, ⟨b, [c], [a], []⟩],
         [⟨c, [a], [b], []⟩, ⟨a, [b], [c], []⟩, ⟨b, [c], [a], []⟩],
         [⟨c, [a], [b], []⟩, ⟨b, [c], [a], []⟩, ⟨a, [b], [c], []⟩]] := rfl
  rw [hperms] at hmem
  simp only [List.mem_cons, List.not_mem_nil, or_false] at hmem
  rcases hmem with rfl | rfl | rfl | rfl | rfl | rfl <;>
  · simp only [findCircularDependencies, List.length_cons, List.length_nil,
      List.foldl_cons, List.foldl_nil]
    simp only [dfs, findNode, insertSet, removeSet, sliceFromElem,
      List.find?, List.foldl_cons, List.foldl_nil,
      List.contains_eq_any_beq, List.any_cons, List.any_nil,
      h1, h2, h3, h4, h5, h6, beq_self_eq_true,
      Bool.false_or, Bool.or_false, Bool.or_self, if_true, if_false,
      Bool.false_eq_true, ite_true, ite_false, List.erase,
      List.indexOf_cons_self, List.drop]
    simp [List.indexOf, List.findIdx, List.findIdx.go, h1, h2, h3, h4, h5, h6]

/-- Witness for C6 at a concrete ring `A.ts → B.ts → C.ts → A.ts`. -/
theorem ring_cycle_detected_witness :
    ([["A.ts", "B.ts", "C.ts"], ["B.ts", "C.ts", "A.ts"],
      ["C.ts", "A.ts", "B.ts"]].any
      (fun cyc => (findCircularDependencies
        (ringGraph "A.ts" "B.ts" "C.ts")).contains cyc)) = true :=
  ring_cycle_detected (ringGraph "A.ts" "B.ts" "C.ts") "A.ts" "B.ts" "C.ts"
    (by decide) (by decide) (by decide) (List.Perm.refl _)

end CodeDetox
